import Mathlib

/-!
Verification of `ldap_hunter.py` (LDAP Attribute Hunter).

The program reads a text file line by line, collects the set of attribute
names (the whitespace-trimmed text before the first colon of each
non-comment, colon-containing line), filters that set by a fixed keyword
list (case-insensitive substring match), and optionally writes the full
sorted attribute set to an output file.

Shallow embedding choices:
- A decoded text line is a Lean `String` (without its trailing newline;
  the trailing newline of a Python file-iteration line can affect none of
  the operations performed on a line: the colon test, the `startswith('#')`
  test, and the prefix before the first colon of a colon-containing line
  are all unchanged by a trailing newline).
- Python `set` becomes `Finset String`; iteration order of the Python set
  is irrelevant because the only consumer sorts its output.
- Opening/reading the input file is modelled by `ReadOutcome`: either the
  full list of decoded lines, or a failure that occurred after some prefix
  of the lines had been consumed (any `Exception` in the `try` block).
- Writing the output file is modelled by the exact character content
  written (`List Char`).
- Python string methods used by the code are transcribed at the character
  level: `str.strip` drops whitespace from both ends, `str.lower` maps
  `Char.toLower`, `line.split(':', 1)[0]` is the longest prefix without a
  colon, `s.startswith('#')` tests the first character, and truthiness of
  a string (`if attr:` / `if args.output:`) is non-emptiness.
-/

namespace LdapHunter

/-- Python `str.strip()` on the character list of a string: drop whitespace
characters from the front and from the back. -/
def pyStrip (l : List Char) : List Char :=
  ((l.dropWhile Char.isWhitespace).reverse.dropWhile Char.isWhitespace).reverse

/-- Python `str.strip()` as an operation on `String`. -/
def strip (s : String) : String :=
  ⟨pyStrip s.data⟩

/-- `line.split(':', 1)[0]` of the Python code: the prefix of the line
before its first colon (the whole line when no colon is present; the code
only uses this on lines that do contain a colon). -/
def beforeColon (line : String) : String :=
  ⟨line.data.takeWhile (fun c => decide (c ≠ ':'))⟩

/-- `line.startswith('#')` of the Python code, applied to the raw line. -/
def startsWithHash (line : String) : Bool :=
  match line.data with
  | [] => false
  | c :: _ => decide (c = '#')

/-- The body of the `for line in f` loop of `extract_ldap_attributes`:
skip the line when it has no colon or starts with `#`; otherwise trim the
prefix before the first colon and, when non-empty, insert it into the
accumulated attribute set. -/
def processLine (attributes : Finset String) (line : String) : Finset String :=
  if !(decide (':' ∈ line.data)) || startsWithHash line then
    attributes
  else
    let attr := strip (beforeColon line)
    if attr ≠ "" then insert attr attributes else attributes

/-- The whole `for` loop of `extract_ldap_attributes`, starting from the
empty set `attributes = set()`. -/
def scanLines (lines : List String) : Finset String :=
  lines.foldl processLine ∅

/-- Outcome of opening and reading the input file: either all decoded
lines, or an exception raised after some prefix of the lines had already
been consumed by the loop. -/
inductive ReadOutcome where
  | ok (lines : List String)
  | fail (consumed : List String)
deriving DecidableEq

/-- `extract_ldap_attributes`: on a successful read, the scan of all
lines; when any exception is raised while opening or reading, the
`except` handler reports the error and returns `set()`, discarding the
locally accumulated attributes. -/
def extract_ldap_attributes (r : ReadOutcome) : Finset String :=
  match r with
  | .ok lines => scanLines lines
  | .fail _consumed => ∅

/-- Lexicographic comparison of character lists by code point, the order
Python uses to compare strings (`sorted` on strings). `lexLe x y = true`
iff `x` is lexicographically at most `y`. -/
def lexLe : List Char → List Char → Bool
  | [], _ => true
  | _ :: _, [] => false
  | a :: as, b :: bs =>
    if a < b then true
    else if b < a then false
    else lexLe as bs

/-- Python's string order as a relation on `String`. -/
def pyLe (a b : String) : Prop :=
  lexLe a.data b.data = true

instance : DecidableRel pyLe :=
  fun a b => inferInstanceAs (Decidable (lexLe a.data b.data = true))

/-- `lexLe` is the reflexive closure of Mathlib's lexicographic strict
order on `List Char`. -/
theorem lexLe_iff (x : List Char) : ∀ y : List Char,
    (lexLe x y = true ↔ List.Lex (· < ·) x y ∨ x = y) := by
  induction x with
  | nil =>
    intro y
    cases y with
    | nil => exact iff_of_true rfl (Or.inr rfl)
    | cons b bs => exact iff_of_true rfl (Or.inl List.Lex.nil)
  | cons a as ih =>
    intro y
    cases y with
    | nil =>
      refine iff_of_false (by simp [lexLe]) ?_
      rintro (h | h)
      · exact List.Lex.not_nil_right _ _ h
      · simp at h
    | cons b bs =>
      rcases lt_trichotomy a b with hab | hab | hab
      · simp only [lexLe, if_pos hab, true_iff]
        exact Or.inl (List.Lex.rel hab)
      · subst hab
        have hstep : lexLe (a :: as) (a :: bs) = lexLe as bs := by
          simp [lexLe]
        rw [hstep, ih bs]
        constructor
        · rintro (h | h)
          · exact Or.inl (List.Lex.cons h)
          · exact Or.inr (by rw [h])
        · rintro (h | h)
          · exact Or.inl (List.Lex.cons_iff.mp h)
          · exact Or.inr (by injection h)
      · have h1 : ¬ a < b := asymm hab
        have h2 : a ≠ b := ne_of_gt hab
        refine iff_of_false (by simp [lexLe, if_neg h1, if_pos hab]) ?_
        rintro (h | h)
        · cases h with
          | rel h' => exact h1 h'
          | cons h' => exact h2 rfl
        · injection h with ha hb
          exact h2 ha

instance : IsTrans String pyLe where
  trans a b c hab hbc := by
    unfold pyLe at *
    rw [lexLe_iff] at *
    rcases hab with h1 | h1
    · rcases hbc with h2 | h2
      · exact Or.inl (trans_of (List.Lex (fun x y : Char => x < y)) h1 h2)
      · rw [← h2]
        exact Or.inl h1
    · rw [h1]
      exact hbc

instance : IsAntisymm String pyLe where
  antisymm a b hab hba := by
    unfold pyLe at *
    rw [lexLe_iff] at *
    have hdata : a.data = b.data := by
      rcases hab with h1 | h1
      · rcases hba with h2 | h2
        · exact absurd h2 (asymm_of (List.Lex (fun x y : Char => x < y)) h1)
        · exact h2.symm
      · exact h1
    exact String.toList_inj.mp hdata

instance : IsTotal String pyLe where
  total a b := by
    unfold pyLe
    rw [lexLe_iff, lexLe_iff]
    rcases trichotomous_of (List.Lex (fun x y : Char => x < y)) a.data b.data with
      h | h | h
    · exact Or.inl (Or.inl h)
    · exact Or.inl (Or.inr h)
    · exact Or.inr (Or.inl h)

/-- Python `sorted` on the elements of a multiset of strings: the unique
sorted arrangement, computed by insertion sort (any sorting algorithm
yields the same list, so the choice of algorithm is immaterial). -/
def msort (m : Multiset String) : List String :=
  Quotient.liftOn m (fun l => l.insertionSort pyLe) (fun l₁ l₂ h =>
    List.eq_of_perm_of_sorted
      (((List.perm_insertionSort pyLe l₁).trans h).trans
        (List.perm_insertionSort pyLe l₂).symm)
      (List.sorted_insertionSort pyLe l₁)
      (List.sorted_insertionSort pyLe l₂))

/-- Python `sorted` applied to a Python set of strings. -/
def pySorted (s : Finset String) : List String :=
  msort s.val

/-- The hardcoded keyword list of `find_interesting_attributes`. -/
def keywords : List String :=
  ["cascade", "legacy", "pwd", "password", "secret", "cred",
   "hash", "key", "backup", "admin", "service", "old", "temp"]

/-- Python `str.lower()`. -/
def pyLower (s : String) : String :=
  ⟨s.data.map Char.toLower⟩

/-- `any(keyword in attr.lower() for keyword in keywords)`: some keyword
is a contiguous substring of the lowercased attribute name. -/
def isInteresting (attr : String) : Bool :=
  keywords.any (fun k => decide (k.data <:+: (pyLower attr).data))

/-- `find_interesting_attributes`: iterate over the attribute set keeping
the attributes matching some keyword, then return the matches sorted (the
Python set iteration order is irrelevant after `sorted`). -/
def find_interesting_attributes (attributes : Finset String) : List String :=
  pySorted (attributes.filter (fun a => isInteresting a = true))

/-- `save_raw_output`: the character content written to the output file —
each attribute of the full set, in sorted order, followed by a newline.
The `interesting` parameter is part of the Python signature but is never
read. -/
def save_raw_output (attributes : Finset String) (_interesting : List String) :
    List Char :=
  ((pySorted attributes).map (fun attr => attr.data ++ ['\n'])).flatten

/-- Truthiness of Python's `if args.output:` and `if attr:`: an absent
option and the empty string are falsy. -/
def pyTruthy : Option String → Bool
  | none => false
  | some s => decide (s ≠ "")

/-- Parsed command line: the positional `file` argument and the optional
output-flag value (`none` when the `-o` flag is absent). -/
structure Args where
  file : String
  output : Option String
deriving DecidableEq

/-- Observable outcome of one run of `main`: whether the file-not-found
error was printed, the attribute set and interesting list computed (none
when the run stopped at the existence check), the output file written
(path and character content), and whether the save confirmation message
was printed. -/
structure RunTrace where
  fileNotFoundError : Bool
  attributes : Option (Finset String)
  interesting : Option (List String)
  written : Option (String × List Char)
  savedMessage : Bool
deriving DecidableEq

/-- The `main` function: check existence of the input file (returning
early with an error message when absent), extract the attributes, compute
the interesting ones, and write the output file only when `args.output`
is truthy. `fileExists` models `Path(args.file).exists()` and `readFile`
models the subsequent open/read of that path. -/
def main (fileExists : String → Bool) (readFile : String → ReadOutcome)
    (args : Args) : RunTrace :=
  if !(fileExists args.file) then
    { fileNotFoundError := true, attributes := none, interesting := none,
      written := none, savedMessage := false }
  else
    let attributes := extract_ldap_attributes (readFile args.file)
    let interesting := find_interesting_attributes attributes
    if pyTruthy args.output then
      { fileNotFoundError := false, attributes := some attributes,
        interesting := some interesting,
        written := some (args.output.getD "", save_raw_output attributes interesting),
        savedMessage := true }
    else
      { fileNotFoundError := false, attributes := some attributes,
        interesting := some interesting, written := none,
        savedMessage := false }

/-- Split a character stream at newline characters (used to state the
round-trip property of the output file: the written content, read back
and split into lines, is the sorted attribute list). -/
def splitNL : List Char → List (List Char)
  | [] => [[]]
  | c :: cs =>
    if c = '\n' then [] :: splitNL cs
    else (splitNL cs).modifyHead (fun l => c :: l)

/-! ### Helper lemmas -/

/-- Membership after one loop iteration: the accumulated set gains exactly
the trimmed non-empty prefix of a colon-containing, non-`#`-starting
line. -/
theorem mem_processLine (s : Finset String) (line a : String) :
    a ∈ processLine s line ↔
      a ∈ s ∨ (':' ∈ line.data ∧ startsWithHash line = false ∧
        strip (beforeColon line) = a ∧ a ≠ "") := by
  unfold processLine
  by_cases hc : ':' ∈ line.data
  · by_cases hh : startsWithHash line = true
    · rw [if_pos (by simp [hc, hh])]
      simp [hh]
    · simp only [Bool.not_eq_true] at hh
      rw [if_neg (by simp [hc, hh])]
      by_cases ha : strip (beforeColon line) = ""
      · rw [if_neg (by simpa using ha)]
        constructor
        · exact Or.inl
        · rintro (h | ⟨-, -, h1, h2⟩)
          · exact h
          · exact absurd (ha ▸ h1).symm h2
      · rw [if_pos (by simpa using ha)]
        rw [Finset.mem_insert]
        constructor
        · rintro (h | h)
          · exact Or.inr ⟨hc, hh, h.symm, h ▸ ha⟩
          · exact Or.inl h
        · rintro (h | ⟨-, -, h1, -⟩)
          · exact Or.inr h
          · exact Or.inl h1.symm
  · rw [if_pos (by simp [hc])]
    constructor
    · exact Or.inl
    · rintro (h | ⟨h1, -⟩)
      · exact h
      · exact absurd h1 hc

/-- Membership in the fold of the whole loop over a list of lines. -/
theorem mem_foldl_processLine (lines : List String) :
    ∀ (s : Finset String) (a : String),
      a ∈ lines.foldl processLine s ↔
        a ∈ s ∨ ∃ line ∈ lines, ':' ∈ line.data ∧ startsWithHash line = false ∧
          strip (beforeColon line) = a ∧ a ≠ "" := by
  induction lines with
  | nil =>
    intro s a
    simp
  | cons l ls ih =>
    intro s a
    rw [List.foldl_cons, ih, mem_processLine]
    constructor
    · rintro ((h | h) | ⟨line, hmem, hl⟩)
      · exact Or.inl h
      · exact Or.inr ⟨l, List.mem_cons_self l ls, h⟩
      · exact Or.inr ⟨line, List.mem_cons_of_mem l hmem, hl⟩
    · rintro (h | ⟨line, hmem, hl⟩)
      · exact Or.inl (Or.inl h)
      · rcases List.mem_cons.mp hmem with rfl | hmem
        · exact Or.inl (Or.inr hl)
        · exact Or.inr ⟨line, hmem, hl⟩

/-- `msort` preserves membership. -/
theorem mem_msort (m : Multiset String) (a : String) : a ∈ msort m ↔ a ∈ m :=
  Quotient.inductionOn m fun l => by simp [msort]

/-- `msort` returns a sorted list. -/
theorem msort_sorted (m : Multiset String) : (msort m).Sorted pyLe :=
  Quotient.inductionOn m fun l => List.sorted_insertionSort pyLe l

/-- `msort` of a duplicate-free multiset has no duplicates. -/
theorem msort_nodup (m : Multiset String) (h : m.Nodup) : (msort m).Nodup :=
  Quotient.inductionOn m
    (fun l hl => ((List.perm_insertionSort pyLe l).nodup_iff).mpr hl) h

/-- `pySorted` preserves membership in the underlying finite set. -/
theorem mem_pySorted (s : Finset String) (a : String) :
    a ∈ pySorted s ↔ a ∈ s :=
  mem_msort s.val a

/-- `pySorted` returns a sorted list. -/
theorem pySorted_sorted (s : Finset String) : (pySorted s).Sorted pyLe :=
  msort_sorted s.val

/-- `pySorted` returns a duplicate-free list. -/
theorem pySorted_nodup (s : Finset String) : (pySorted s).Nodup :=
  msort_nodup s.val s.nodup

/-- Splitting at newlines undoes appending a newline-free chunk plus a
newline in front of a stream. -/
theorem splitNL_append (a : List Char) (rest : List Char) (h : '\n' ∉ a) :
    splitNL (a ++ '\n' :: rest) = a :: splitNL rest := by
  induction a with
  | nil => simp [splitNL]
  | cons c cs ih =>
    have hc : ¬ c = '\n' := fun e => h (e ▸ List.mem_cons_self c cs)
    have h' : '\n' ∉ cs := fun hm => h (List.mem_cons_of_mem c hm)
    have hstep : splitNL ((c :: cs) ++ '\n' :: rest) =
        (splitNL (cs ++ '\n' :: rest)).modifyHead (fun l => c :: l) := by
      simp [splitNL, hc]
    rw [hstep, ih h']
    rfl

/-- Splitting at newlines recovers the rows written by the output loop
(with one trailing empty chunk after the final newline), provided no row
contains a newline itself. -/
theorem splitNL_flatten (L : List String) (h : ∀ a ∈ L, '\n' ∉ a.data) :
    splitNL ((L.map (fun a => a.data ++ ['\n'])).flatten) =
      L.map String.data ++ [[]] := by
  induction L with
  | nil => simp [splitNL]
  | cons x xs ih =>
    have hx : '\n' ∉ x.data := h x (List.mem_cons_self x xs)
    have hxs : ∀ a ∈ xs, '\n' ∉ a.data :=
      fun a ha => h a (List.mem_cons_of_mem x ha)
    simp only [List.map_cons, List.flatten_cons, List.append_assoc,
      List.singleton_append]
    rw [splitNL_append x.data _ hx, ih hxs]
    simp

/-- A whitespace character is neither `#` nor `:`. -/
theorem ws_ne_hash_colon (c : Char) (h : c.isWhitespace = true) :
    c ≠ '#' ∧ c ≠ ':' := by
  have h4 : ((c = ' ' ∨ c = '\t') ∨ c = '\r') ∨ c = '\n' := by
    simpa [Char.isWhitespace] using h
  rcases h4 with ((rfl | rfl) | rfl) | rfl <;> exact ⟨by decide, by decide⟩

/-- `takeWhile` passes over a prefix all of whose elements satisfy the
predicate. -/
theorem takeWhile_all_append (p : Char → Bool) (xs ys : List Char)
    (h : ∀ c ∈ xs, p c = true) :
    (xs ++ ys).takeWhile p = xs ++ ys.takeWhile p := by
  induction xs with
  | nil => simp
  | cons c cs ih =>
    have hc : p c = true := h c (List.mem_cons_self c cs)
    have hcs : ∀ x ∈ cs, p x = true := fun x hx => h x (List.mem_cons_of_mem c hx)
    simp [List.takeWhile_cons, hc, ih hcs]

/-- `dropWhile` consumes a prefix all of whose elements satisfy the
predicate. -/
theorem dropWhile_all_append (p : Char → Bool) (xs ys : List Char)
    (h : ∀ c ∈ xs, p c = true) :
    (xs ++ ys).dropWhile p = ys.dropWhile p := by
  induction xs with
  | nil => simp
  | cons c cs ih =>
    have hc : p c = true := h c (List.mem_cons_self c cs)
    have hcs : ∀ x ∈ cs, p x = true := fun x hx => h x (List.mem_cons_of_mem c hx)
    simp [List.dropWhile_cons, hc, ih hcs]

/-- A string built from a non-empty character list is not the empty
string. -/
theorem mk_ne_empty (l : List Char) (h : l ≠ []) : (⟨l⟩ : String) ≠ "" := by
  intro e
  exact h (congrArg String.data e)

/-- `find_interesting_attributes` of the empty set is the empty list. -/
theorem find_interesting_empty : find_interesting_attributes ∅ = [] := by
  decide

/-! ### Claim theorems -/

/-- Claim C1: for every readable input file, the set returned by
`extract_ldap_attributes` contains exactly the distinct, whitespace-trimmed,
non-empty prefixes before the first colon of those lines that contain a
colon and do not start with `#`; comment lines and colon-free lines never
contribute an attribute. -/
theorem extract_attributes_characterization (lines : List String) (a : String) :
    a ∈ extract_ldap_attributes (.ok lines) ↔
      ∃ line ∈ lines, ':' ∈ line.data ∧ startsWithHash line = false ∧
        strip (beforeColon line) = a ∧ a ≠ "" := by
  unfold extract_ldap_attributes scanLines
  rw [mem_foldl_processLine]
  simp

/-- Claim C2: for every attribute set, `find_interesting_attributes` returns
a subset of that set, with no duplicates (each qualifying attribute appears
exactly once even when it matches several keywords), sorted
lexicographically by code point on the original-case names, containing
exactly those attributes whose lowercase form has some keyword of the fixed
list as a substring. -/
theorem find_interesting_spec (s : Finset String) :
    (∀ a ∈ find_interesting_attributes s, a ∈ s) ∧
    (find_interesting_attributes s).Nodup ∧
    (∀ a ∈ find_interesting_attributes s,
      (find_interesting_attributes s).count a = 1) ∧
    (find_interesting_attributes s).Sorted pyLe ∧
    (∀ a, a ∈ find_interesting_attributes s ↔
      a ∈ s ∧ ∃ k ∈ keywords, k.data <:+: (pyLower a).data) := by
  have hmem : ∀ a, a ∈ find_interesting_attributes s ↔
      a ∈ s ∧ ∃ k ∈ keywords, k.data <:+: (pyLower a).data := by
    intro a
    unfold find_interesting_attributes
    rw [mem_pySorted, Finset.mem_filter]
    unfold isInteresting
    rw [List.any_eq_true]
    simp only [decide_eq_true_eq]
  have hnodup : (find_interesting_attributes s).Nodup := pySorted_nodup _
  refine ⟨fun a ha => ((hmem a).mp ha).1, hnodup,
    fun a ha => List.count_eq_one_of_mem hnodup ha, pySorted_sorted _, hmem⟩

/-- Claim C3: with an output path supplied, the written file content is
exactly every attribute of the full extracted set, one per line, sorted
lexicographically, each line newline-terminated: splitting the written
characters at newlines recovers the sorted attribute rows followed by the
empty chunk after the final newline. -/
theorem save_raw_output_roundtrip (s : Finset String) (interesting : List String)
    (h : ∀ a ∈ s, '\n' ∉ a.data) :
    ∃ rows : List String,
      (∀ a, a ∈ rows ↔ a ∈ s) ∧ rows.Nodup ∧ rows.Sorted pyLe ∧
      save_raw_output s interesting = (rows.map (fun a => a.data ++ ['\n'])).flatten ∧
      splitNL (save_raw_output s interesting) = rows.map String.data ++ [[]] := by
  refine ⟨pySorted s, fun a => mem_pySorted s a, pySorted_nodup s,
    pySorted_sorted s, rfl, ?_⟩
  unfold save_raw_output
  exact splitNL_flatten (pySorted s) (fun a ha => h a ((mem_pySorted s a).mp ha))

/-- Witness for C3 at the concrete set `{"b", "a"}`. -/
theorem save_raw_output_roundtrip_witness :
    (∀ a ∈ ({"b", "a"} : Finset String), '\n' ∉ a.data) ∧
    (∃ rows : List String,
      (∀ a, a ∈ rows ↔ a ∈ ({"b", "a"} : Finset String)) ∧ rows.Nodup ∧
      rows.Sorted pyLe ∧
      save_raw_output {"b", "a"} ["b"] =
        (rows.map (fun a => a.data ++ ['\n'])).flatten ∧
      splitNL (save_raw_output {"b", "a"} ["b"]) =
        rows.map String.data ++ [[]]) :=
  ⟨by decide, save_raw_output_roundtrip {"b", "a"} ["b"] (by decide)⟩

/-- Claim C4: when the input file does not exist, `main` prints the
file-not-found error and stops: no attribute extraction is performed, no
interesting list is computed, and no output file is written, whatever the
output flag was. -/
theorem main_missing_file_noop (fileExists : String → Bool)
    (readFile : String → ReadOutcome) (args : Args)
    (h : fileExists args.file = false) :
    (main fileExists readFile args).fileNotFoundError = true ∧
    (main fileExists readFile args).attributes = none ∧
    (main fileExists readFile args).interesting = none ∧
    (main fileExists readFile args).written = none ∧
    (main fileExists readFile args).savedMessage = false := by
  unfold main
  rw [h]
  simp

/-- Witness for C4: a run on a non-existent file with the output flag
supplied. -/
theorem main_missing_file_noop_witness :
    ((fun _ : String => false) "dump.ldif" = false) ∧
    ((main (fun _ => false) (fun _ => .ok ["cn: x"])
        { file := "dump.ldif", output := some "out.txt" }).fileNotFoundError = true ∧
      (main (fun _ => false) (fun _ => .ok ["cn: x"])
        { file := "dump.ldif", output := some "out.txt" }).attributes = none ∧
      (main (fun _ => false) (fun _ => .ok ["cn: x"])
        { file := "dump.ldif", output := some "out.txt" }).interesting = none ∧
      (main (fun _ => false) (fun _ => .ok ["cn: x"])
        { file := "dump.ldif", output := some "out.txt" }).written = none ∧
      (main (fun _ => false) (fun _ => .ok ["cn: x"])
        { file := "dump.ldif", output := some "out.txt" }).savedMessage = false) :=
  ⟨rfl, main_missing_file_noop (fun _ => false) (fun _ => .ok ["cn: x"])
    { file := "dump.ldif", output := some "out.txt" } rfl⟩

/-- Claim C5: if opening or reading the input file fails at any point,
`extract_ldap_attributes` returns the empty set, discarding whatever
attributes had been accumulated from the lines consumed before the
failure, and the run continues non-fatally with zero attributes. -/
theorem extract_read_failure_nonfatal (consumed : List String)
    (fileExists : String → Bool) (readFile : String → ReadOutcome) (args : Args)
    (hfe : fileExists args.file = true)
    (hrf : readFile args.file = .fail consumed) :
    extract_ldap_attributes (.fail consumed) = ∅ ∧
    (main fileExists readFile args).fileNotFoundError = false ∧
    (main fileExists readFile args).attributes = some ∅ ∧
    (main fileExists readFile args).interesting = some [] := by
  refine ⟨rfl, ?_⟩
  unfold main
  rw [hfe, hrf]
  by_cases hpt : pyTruthy args.output = true
  · simp [hpt, extract_ldap_attributes, find_interesting_empty]
  · simp only [Bool.not_eq_true] at hpt
    simp [hpt, extract_ldap_attributes, find_interesting_empty]

/-- Witness for C5: a run whose read fails after two lines had been
consumed. -/
theorem extract_read_failure_nonfatal_witness :
    ((fun _ : String => true) "dump.ldif" = true) ∧
    ((fun _ : String => ReadOutcome.fail ["cn: a", "sn: b"]) "dump.ldif" =
      ReadOutcome.fail ["cn: a", "sn: b"]) ∧
    (extract_ldap_attributes (.fail ["cn: a", "sn: b"]) = ∅ ∧
      (main (fun _ => true) (fun _ => .fail ["cn: a", "sn: b"])
        { file := "dump.ldif", output := none }).fileNotFoundError = false ∧
      (main (fun _ => true) (fun _ => .fail ["cn: a", "sn: b"])
        { file := "dump.ldif", output := none }).attributes = some ∅ ∧
      (main (fun _ => true) (fun _ => .fail ["cn: a", "sn: b"])
        { file := "dump.ldif", output := none }).interesting = some []) :=
  ⟨rfl, rfl, extract_read_failure_nonfatal ["cn: a", "sn: b"]
    (fun _ => true) (fun _ => .fail ["cn: a", "sn: b"])
    { file := "dump.ldif", output := none } rfl rfl⟩

/-- Claim C6: comment detection looks at the raw line, so a line made of
leading whitespace followed by `#` is not treated as a comment: when such
a line contains a colon, its trimmed prefix before the first colon (which
begins with `#` and is therefore non-empty) is inserted into the
attribute set. -/
theorem leading_whitespace_hash_processed (w : Char) (ws rest : List Char)
    (line : String)
    (hline : line.data = w :: ws ++ '#' :: rest)
    (hw : w.isWhitespace = true)
    (hws : ∀ c ∈ ws, c.isWhitespace = true)
    (hc : ':' ∈ line.data) :
    startsWithHash line = false ∧
    strip (beforeColon line) ≠ "" ∧
    strip (beforeColon line) ∈ extract_ldap_attributes (.ok [line]) := by
  have hwne := ws_ne_hash_colon w hw
  have hhash : startsWithHash line = false := by
    unfold startsWithHash
    rw [hline]
    simpa using hwne.1
  have hbc : (beforeColon line).data =
      w :: ws ++ '#' :: rest.takeWhile (fun c => decide (c ≠ ':')) := by
    unfold beforeColon
    rw [hline]
    have hall : ∀ c ∈ w :: ws, (fun c => decide (c ≠ ':')) c = true := by
      intro c hcmem
      rcases List.mem_cons.mp hcmem with rfl | hcmem
      · simpa using hwne.2
      · simpa using (ws_ne_hash_colon c (hws c hcmem)).2
    have := takeWhile_all_append (fun c => decide (c ≠ ':'))
      (w :: ws) ('#' :: rest) hall
    simp only [List.cons_append] at this ⊢
    rw [this]
    simp [List.takeWhile_cons]
  have hdrop : (beforeColon line).data.dropWhile Char.isWhitespace =
      '#' :: rest.takeWhile (fun c => decide (c ≠ ':')) := by
    rw [hbc]
    have hall : ∀ c ∈ w :: ws, Char.isWhitespace c = true := by
      intro c hcmem
      rcases List.mem_cons.mp hcmem with rfl | hcmem
      · exact hw
      · exact hws c hcmem
    have := dropWhile_all_append Char.isWhitespace (w :: ws)
      ('#' :: rest.takeWhile (fun c => decide (c ≠ ':'))) hall
    simp only [List.cons_append] at this ⊢
    rw [this]
    rw [List.dropWhile_cons_of_neg (by decide)]
  have hne : strip (beforeColon line) ≠ "" := by
    apply mk_ne_empty
    unfold pyStrip
    rw [hdrop]
    intro hrev
    have hnil := List.reverse_eq_nil_iff.mp hrev
    have hall := List.dropWhile_eq_nil_iff.mp hnil
    have : Char.isWhitespace '#' = true := by
      apply hall
      simp
    simp at this
  refine ⟨hhash, hne, ?_⟩
  show strip (beforeColon line) ∈ extract_ldap_attributes (.ok [line])
  unfold extract_ldap_attributes scanLines
  rw [mem_foldl_processLine]
  exact Or.inr ⟨line, List.mem_cons_self line [], hc, hhash, rfl, hne⟩

/-- Witness for C6: the raw line consisting of one space, then `#cn: x`. -/
theorem leading_whitespace_hash_processed_witness :
    ((" #cn: x" : String).data = ' ' :: [] ++ '#' :: ("cn: x" : String).data) ∧
    (' '.isWhitespace = true) ∧
    (∀ c ∈ ([] : List Char), c.isWhitespace = true) ∧
    (':' ∈ (" #cn: x" : String).data) ∧
    (startsWithHash " #cn: x" = false ∧
      strip (beforeColon " #cn: x") ≠ "" ∧
      strip (beforeColon " #cn: x") ∈ extract_ldap_attributes (.ok [" #cn: x"])) :=
  ⟨rfl, rfl, by decide, by decide,
    leading_whitespace_hash_processed ' ' [] ("cn: x").data " #cn: x"
      rfl rfl (by decide) (by decide)⟩

/-- Claim C7: extraction is deterministic: two runs over the same
unmodified file (the same list of decoded lines) return the identical
attribute set. -/
theorem extract_deterministic (lines₁ lines₂ : List String)
    (h : lines₁ = lines₂) :
    extract_ldap_attributes (.ok lines₁) = extract_ldap_attributes (.ok lines₂) := by
  rw [h]

/-- Witness for C7 on a concrete two-line file. -/
theorem extract_deterministic_witness :
    (["cn: a", "# b"] : List String) = ["cn: a", "# b"] ∧
    extract_ldap_attributes (.ok ["cn: a", "# b"]) =
      extract_ldap_attributes (.ok ["cn: a", "# b"]) :=
  ⟨rfl, extract_deterministic ["cn: a", "# b"] ["cn: a", "# b"] rfl⟩

/-- Claim C8: on the concrete input lines `cn: John`, `userPassword: xyz`,
`# comment`, `mail`, `legacyFlag: true`, the extracted set is
`{cn, userPassword, legacyFlag}` and the interesting list is exactly
`[legacyFlag, userPassword]` in that order. -/
theorem example_dump_run :
    extract_ldap_attributes
        (.ok ["cn: John", "userPassword: xyz", "# comment", "mail",
              "legacyFlag: true"]) =
      {"cn", "userPassword", "legacyFlag"} ∧
    find_interesting_attributes
        (extract_ldap_attributes
          (.ok ["cn: John", "userPassword: xyz", "# comment", "mail",
                "legacyFlag: true"])) =
      ["legacyFlag", "userPassword"] := by
  constructor
  · decide
  · decide

/-- Claim C9: the content written by `save_raw_output` depends only on the
attribute set; the `interesting` parameter of its Python signature is
never read, so any two values of it produce identical file content. -/
theorem save_raw_output_ignores_interesting (s : Finset String)
    (i₁ i₂ : List String) :
    save_raw_output s i₁ = save_raw_output s i₂ :=
  rfl

/-- Claim C10: supplying the output option with an empty-string value is
treated exactly like not supplying it: the whole run trace coincides with
the no-output run, so no output file is written and no save confirmation
is printed. -/
theorem main_empty_output_no_write (fileExists : String → Bool)
    (readFile : String → ReadOutcome) (f : String) :
    main fileExists readFile { file := f, output := some "" } =
      main fileExists readFile { file := f, output := none } ∧
    (main fileExists readFile { file := f, output := some "" }).written = none ∧
    (main fileExists readFile { file := f, output := some "" }).savedMessage
      = false := by
  have hpt : pyTruthy (some "") = false := by decide
  unfold main
  by_cases h : fileExists f = true
  · simp [h, hpt, pyTruthy]
  · simp only [Bool.not_eq_true] at h
    simp [h]

end LdapHunter
